import Mathlib

/-!
Verification of the 3bong crawler (`src/crawler.py`) against its
natural-language specification.

The Python source is shallowly embedded: pure functions become Lean
functions; Python floats are modelled as exact rationals (`ℚ`); Python's
`None` becomes `Option`; regular-expression scans are translated to
explicit character-list scanners implementing the same leftmost-match /
greedy semantics on the inputs at hand; the stateful, exception-throwing
stock-enrichment code is modelled with explicit environments describing
the outcomes of the external browser/HTTP calls and with `Except` for
raised exceptions.
-/

set_option maxRecDepth 4096

namespace Crawler

/-! ### PriceOptimizer (`choose_sale_combo`, crawler.py lines 210-239)

```python
SALE_CANDIDATES = [1900, 2900, 3900]
FEE_RATE = 0.22
BAND_MIN = 0.10
BAND_MAX = 0.20

def choose_sale_combo(unit_cost):
    if unit_cost is None or unit_cost <= 0:
        return None, None, None
    feasible = []
    for sp in SALE_CANDIDATES:
        net = sp * (1 - FEE_RATE)
        if net <= 0: continue
        q_max = int((1 - BAND_MIN) * net // unit_cost)
        if q_max >= 1:
            margin = 1 - (q_max * unit_cost) / net
            feasible.append((sp, q_max, margin))
    if not feasible:
        return None, None, None
    in_band = [r for r in feasible if BAND_MIN <= r[2] <= BAND_MAX]
    if in_band:
        in_band.sort(key=lambda x: (-x[2], x[0]))
        return in_band[0]
    above = [r for r in feasible if r[2] > BAND_MAX]
    if above:
        above.sort(key=lambda x: (x[2] - BAND_MAX, x[0]))
        return above[0]
    return None, None, None
```
-/

def SALE_CANDIDATES : List ℤ := [1900, 2900, 3900]

def FEE_RATE : ℚ := 22 / 100

def BAND_MIN : ℚ := 10 / 100

def BAND_MAX : ℚ := 20 / 100

/-- A feasible triple `(sale price, sale quantity, margin)`. -/
abbrev Combo := ℤ × ℤ × ℚ

/-- The `feasible` list built by the `for sp in SALE_CANDIDATES` loop.
`int(x // y)` on positive floats is the floor, modelled by `Int.floor`
on `ℚ`. -/
def feasible (unit_cost : ℚ) : List Combo :=
  SALE_CANDIDATES.filterMap fun (sp : ℤ) =>
    if (sp : ℚ) * (1 - FEE_RATE) ≤ 0 then none
    else if 1 ≤ ⌊(1 - BAND_MIN) * ((sp : ℚ) * (1 - FEE_RATE)) / unit_cost⌋ then
      some (sp, ⌊(1 - BAND_MIN) * ((sp : ℚ) * (1 - FEE_RATE)) / unit_cost⌋,
        1 - ((⌊(1 - BAND_MIN) * ((sp : ℚ) * (1 - FEE_RATE)) / unit_cost⌋ : ℚ) * unit_cost) /
          ((sp : ℚ) * (1 - FEE_RATE)))
    else none

/-- Strict lexicographic order on sort keys `(primary, secondary)`;
Python compares key tuples exactly this way. -/
def keyLt (a b : ℚ × ℚ) : Prop :=
  a.1 < b.1 ∨ (a.1 = b.1 ∧ a.2 < b.2)

instance (a b : ℚ × ℚ) : Decidable (keyLt a b) := by
  unfold keyLt; infer_instance

/-- One comparison step: keep the accumulator unless the new element's key
is strictly smaller.  Folding this over a list returns the first element
with minimal key — exactly `sorted(xs, key=key)[0]` for Python's stable
sort. -/
def selStep (key : Combo → ℚ × ℚ) (b y : Combo) : Combo :=
  if keyLt (key y) (key b) then y else b

/-- `sorted(xs, key=key)[0]` (`none` on the empty list). -/
def selBest (key : Combo → ℚ × ℚ) : List Combo → Option Combo
  | [] => none
  | x :: xs => some (xs.foldl (selStep key) x)

/-- The in-band filter `[r for r in feasible if BAND_MIN <= r[2] <= BAND_MAX]`. -/
def inBand (unit_cost : ℚ) : List Combo :=
  (feasible unit_cost).filter fun r => decide (BAND_MIN ≤ r.2.2 ∧ r.2.2 ≤ BAND_MAX)

/-- The above-band filter `[r for r in feasible if r[2] > BAND_MAX]`. -/
def aboveBand (unit_cost : ℚ) : List Combo :=
  (feasible unit_cost).filter fun r => decide (BAND_MAX < r.2.2)

/-- Sort key for the in-band branch: `(-x[2], x[0])`. -/
def inBandKey (r : Combo) : ℚ × ℚ := (-r.2.2, (r.1 : ℚ))

/-- Sort key for the above-band branch: `(x[2] - BAND_MAX, x[0])`. -/
def aboveKey (r : Combo) : ℚ × ℚ := (r.2.2 - BAND_MAX, (r.1 : ℚ))

/-- `choose_sale_combo`.  The Python function returns a 3-tuple whose
components are individually `None`-able, which is kept verbatim. -/
def choose_sale_combo : Option ℚ → Option ℤ × Option ℤ × Option ℚ
  | none => (none, none, none)
  | some c =>
    if c ≤ 0 then (none, none, none)
    else if feasible c = [] then (none, none, none)
    else
      match selBest inBandKey (inBand c) with
      | some r => (some r.1, some r.2.1, some r.2.2)
      | none =>
        match selBest aboveKey (aboveBand c) with
        | some r => (some r.1, some r.2.1, some r.2.2)
        | none => (none, none, none)

/-- Concrete evaluation of the feasibility loop at `unit_cost = 1000`:
nets are `1482, 2262, 3042`; the floors give `q_max = 1, 2, 2`; margins
are `482/1482, 262/2262, 1042/3042`. -/
lemma feasible_1000 :
    feasible 1000 = [(1900, 1, 241/741), (2900, 2, 131/1131), (3900, 2, 521/1521)] := by
  unfold feasible SALE_CANDIDATES
  norm_num [List.filterMap_cons, FEE_RATE, BAND_MIN]

lemma keyLt_irrefl (a : ℚ × ℚ) : ¬ keyLt a a := by
  unfold keyLt; push_neg
  exact ⟨le_refl _, fun _ => le_refl _⟩

lemma keyLt_of_not_of {a b c : ℚ × ℚ} (h1 : ¬ keyLt a b) (h2 : keyLt a c) : keyLt b c := by
  unfold keyLt at *
  push_neg at h1
  obtain ⟨hba, hba2⟩ := h1
  rcases h2 with h | ⟨he, hs⟩
  · exact Or.inl (lt_of_le_of_lt hba h)
  · rcases lt_or_eq_of_le hba with h' | h'
    · exact Or.inl (by rw [← he]; exact h')
    · exact Or.inr ⟨h'.trans he, lt_of_le_of_lt (hba2 h'.symm) hs⟩

lemma keyLt_trans {a b c : ℚ × ℚ} (h1 : keyLt a b) (h2 : keyLt b c) : keyLt a c := by
  unfold keyLt at *
  rcases h1 with h1 | ⟨e1, s1⟩ <;> rcases h2 with h2 | ⟨e2, s2⟩
  · exact Or.inl (lt_trans h1 h2)
  · exact Or.inl (e2 ▸ h1)
  · exact Or.inl (e1 ▸ h2)
  · exact Or.inr ⟨e1.trans e2, lt_trans s1 s2⟩

lemma foldl_selStep_mem (key : Combo → ℚ × ℚ) (xs : List Combo) :
    ∀ b : Combo, xs.foldl (selStep key) b = b ∨ xs.foldl (selStep key) b ∈ xs := by
  induction xs with
  | nil => intro b; exact Or.inl rfl
  | cons y ys ih =>
    intro b
    simp only [List.foldl_cons]
    rcases ih (selStep key b y) with h | h
    · rw [h]; unfold selStep
      split
      · exact Or.inr (List.mem_cons_self _ _)
      · exact Or.inl rfl
    · exact Or.inr (List.mem_cons_of_mem _ h)

lemma foldl_selStep_min (key : Combo → ℚ × ℚ) (xs : List Combo) :
    ∀ b : Combo,
      (∀ s ∈ xs, ¬ keyLt (key s) (key (xs.foldl (selStep key) b))) ∧
      ¬ keyLt (key b) (key (xs.foldl (selStep key) b)) := by
  induction xs with
  | nil => intro b; exact ⟨by simp, keyLt_irrefl _⟩
  | cons y ys ih =>
    intro b
    simp only [List.foldl_cons]
    by_cases hlt : keyLt (key y) (key b)
    · rw [show selStep key b y = y from if_pos hlt]
      obtain ⟨hall, hacc⟩ := ih y
      refine ⟨fun s hs => ?_, fun hb => hacc (keyLt_trans hlt hb)⟩
      rcases List.mem_cons.mp hs with rfl | hs'
      · exact hacc
      · exact hall s hs'
    · rw [show selStep key b y = b from if_neg hlt]
      obtain ⟨hall, hacc⟩ := ih b
      refine ⟨fun s hs => ?_, hacc⟩
      rcases List.mem_cons.mp hs with rfl | hs'
      · exact fun hy => hacc (keyLt_of_not_of hlt hy)
      · exact hall s hs'

lemma selBest_eq_some {key : Combo → ℚ × ℚ} {xs : List Combo} {r : Combo}
    (h : selBest key xs = some r) :
    r ∈ xs ∧ ∀ s ∈ xs, ¬ keyLt (key s) (key r) := by
  match xs, h with
  | x :: xs, h =>
    have hr : r = xs.foldl (selStep key) x := by
      simpa [selBest] using h.symm
    subst hr
    obtain ⟨hall, hacc⟩ := foldl_selStep_min key xs x
    rcases foldl_selStep_mem key xs x with he | he
    · refine ⟨by rw [he]; exact List.mem_cons_self _ _, fun s hs => ?_⟩
      rcases List.mem_cons.mp hs with rfl | hs'
      · rw [he]; exact keyLt_irrefl _
      · exact hall s hs'
    · refine ⟨List.mem_cons_of_mem _ he, fun s hs => ?_⟩
      rcases List.mem_cons.mp hs with rfl | hs'
      · exact hacc
      · exact hall s hs'

lemma selBest_eq_none {key : Combo → ℚ × ℚ} {xs : List Combo} :
    selBest key xs = none ↔ xs = [] := by
  cases xs <;> simp [selBest]

lemma selBest_some_of_ne_nil (key : Combo → ℚ × ℚ) {xs : List Combo} (h : xs ≠ []) :
    ∃ r, selBest key xs = some r := by
  cases xs with
  | nil => exact absurd rfl h
  | cons x xs => exact ⟨_, rfl⟩

/-- Shape of a member of the `feasible` list: it records a candidate sale
price with positive net proceeds, the floor quantity, and the margin
formula, with `q_max ≥ 1`. -/
lemma feasible_shape {c : ℚ} {r : Combo} (h : r ∈ feasible c) :
    r.1 ∈ SALE_CANDIDATES ∧
    0 < (r.1 : ℚ) * (1 - FEE_RATE) ∧
    r.2.1 = ⌊(1 - BAND_MIN) * ((r.1 : ℚ) * (1 - FEE_RATE)) / c⌋ ∧
    1 ≤ r.2.1 ∧
    r.2.2 = 1 - ((r.2.1 : ℚ) * c) / ((r.1 : ℚ) * (1 - FEE_RATE)) := by
  unfold feasible at h
  obtain ⟨sp, hsp, heq⟩ := List.mem_filterMap.mp h
  by_cases h1 : (sp : ℚ) * (1 - FEE_RATE) ≤ 0
  · rw [if_pos h1] at heq; exact absurd heq (by simp)
  · rw [if_neg h1] at heq
    by_cases h2 : 1 ≤ ⌊(1 - BAND_MIN) * ((sp : ℚ) * (1 - FEE_RATE)) / c⌋
    · rw [if_pos h2] at heq
      obtain rfl := Option.some.inj heq
      exact ⟨hsp, lt_of_not_le h1, rfl, h2, rfl⟩
    · rw [if_neg h2] at heq; exact absurd heq (by simp)

/-- Every feasible margin is at least `BAND_MIN`: the floor in `q_max`
guarantees `q_max * unit_cost ≤ (1 - BAND_MIN) * net`. -/
lemma margin_lb {c : ℚ} (hc : 0 < c) {r : Combo} (hr : r ∈ feasible c) :
    BAND_MIN ≤ r.2.2 := by
  obtain ⟨-, hnet, hq, -, hm⟩ := feasible_shape hr
  set net : ℚ := (r.1 : ℚ) * (1 - FEE_RATE) with hnetdef
  have hfl : ((r.2.1 : ℚ)) ≤ (1 - BAND_MIN) * net / c := by
    rw [hq]; exact_mod_cast Int.floor_le _
  have h2 : (r.2.1 : ℚ) * c ≤ (1 - BAND_MIN) * net := (le_div_iff₀ hc).mp hfl
  have h3 : (r.2.1 : ℚ) * c / net ≤ 1 - BAND_MIN := by
    rw [div_le_iff₀ hnet]; linarith [mul_comm (1 - BAND_MIN) net]
  rw [hm]; linarith

lemma inBand_subset {c : ℚ} {r : Combo} (h : r ∈ inBand c) : r ∈ feasible c :=
  (List.mem_filter.mp h).1

lemma aboveBand_subset {c : ℚ} {r : Combo} (h : r ∈ aboveBand c) : r ∈ feasible c :=
  (List.mem_filter.mp h).1

lemma mem_inBand_or_above {c : ℚ} (hc : 0 < c) {r : Combo} (hr : r ∈ feasible c) :
    r ∈ inBand c ∨ r ∈ aboveBand c := by
  by_cases h : r.2.2 ≤ BAND_MAX
  · exact Or.inl (List.mem_filter.mpr ⟨hr, by simp [margin_lb hc hr, h]⟩)
  · exact Or.inr (List.mem_filter.mpr ⟨hr, by simp [lt_of_not_le h]⟩)

lemma aboveBand_ne_nil {c : ℚ} (hc : 0 < c) (hF : feasible c ≠ [])
    (hib : inBand c = []) : aboveBand c ≠ [] := by
  obtain ⟨r, hr⟩ := List.exists_mem_of_ne_nil _ hF
  rcases mem_inBand_or_above hc hr with h | h
  · rw [hib] at h; exact absurd h (List.not_mem_nil _)
  · exact List.ne_nil_of_mem h

/-- Reduction of `choose_sale_combo` past its two guards. -/
lemma choose_reduce {c : ℚ} (hc : 0 < c) (hF : feasible c ≠ []) :
    choose_sale_combo (some c) =
      (match selBest inBandKey (inBand c) with
        | some r => (some r.1, some r.2.1, some r.2.2)
        | none =>
          match selBest aboveKey (aboveBand c) with
          | some r => (some r.1, some r.2.1, some r.2.2)
          | none => (none, none, none)) := by
  show (if c ≤ 0 then ((none, none, none) : Option ℤ × Option ℤ × Option ℚ)
      else if feasible c = [] then (none, none, none) else _) = _
  rw [if_neg (not_le.mpr hc), if_neg hF]

lemma inBand_1000 : inBand 1000 = [(2900, 2, 131/1131)] := by
  unfold inBand
  rw [feasible_1000]
  norm_num [List.filter, BAND_MIN, BAND_MAX]

lemma choose_1000 :
    choose_sale_combo (some 1000) = (some 2900, some 2, some (131/1131)) := by
  show (if (1000 : ℚ) ≤ 0 then (none, none, none)
    else if feasible 1000 = [] then (none, none, none)
    else
      match selBest inBandKey (inBand 1000) with
      | some r => (some r.1, some r.2.1, some r.2.2)
      | none =>
        match selBest aboveKey (aboveBand 1000) with
        | some r => (some r.1, some r.2.1, some r.2.2)
        | none => (none, none, none)) = (some 2900, some 2, some (131/1131))
  rw [if_neg (by norm_num), if_neg (by rw [feasible_1000]; simp), inBand_1000]
  rfl

/-- Positivity of the net proceeds for each of the three concrete
candidate prices. -/
lemma net_pos : ∀ sp ∈ SALE_CANDIDATES, 0 < (sp : ℚ) * (1 - FEE_RATE) := by
  intro sp hsp
  fin_cases hsp <;> norm_num [FEE_RATE]

/-- With a positive unit cost and a nonempty feasible list the function
returns a member of the feasible list. -/
lemma choose_some_of_ne_nil {c : ℚ} (hc : 0 < c) (hF : feasible c ≠ []) :
    ∃ r : Combo, r ∈ feasible c ∧
      choose_sale_combo (some c) = (some r.1, some r.2.1, some r.2.2) := by
  rw [choose_reduce hc hF]
  cases hsel : selBest inBandKey (inBand c) with
  | some r =>
    exact ⟨r, inBand_subset (selBest_eq_some hsel).1, rfl⟩
  | none =>
    have hib : inBand c = [] := selBest_eq_none.mp hsel
    obtain ⟨r, hsel2⟩ := selBest_some_of_ne_nil aboveKey (aboveBand_ne_nil hc hF hib)
    rw [hsel2]
    exact ⟨r, aboveBand_subset (selBest_eq_some hsel2).1, rfl⟩

lemma choose_none_of_nonpos {c : ℚ} (hc : c ≤ 0) :
    choose_sale_combo (some c) = (none, none, none) := by
  show (if c ≤ 0 then ((none, none, none) : Option ℤ × Option ℤ × Option ℚ) else _) = _
  rw [if_pos hc]

lemma choose_none_of_nil {c : ℚ} (hc : ¬ c ≤ 0) (hF : feasible c = []) :
    choose_sale_combo (some c) = (none, none, none) := by
  show (if c ≤ 0 then ((none, none, none) : Option ℤ × Option ℤ × Option ℚ)
      else if feasible c = [] then (none, none, none) else _) = _
  rw [if_neg hc, if_pos hF]

/-- **C1.** For every `unitCost > 0` with at least one feasible candidate
triple, `choose_sale_combo` selects, among feasible triples whose margin
lies in `[BAND_MIN, BAND_MAX]` inclusive, the one with the highest margin,
tie-broken by the lowest sale price; and if no triple is in-band, it
selects among triples with margin `> BAND_MAX` the one whose excess over
`BAND_MAX` is smallest, tie-broken by the lowest sale price.  In
particular, for `unitCost = 1000` (with `SALE_CANDIDATES = {1900, 2900,
3900}`, `FEE_RATE = 0.22`, band `[0.10, 0.20]`) the returned triple is the
unique in-band feasible triple `(2900, 2, 1 - 2*1000/(2900*(1-0.22)))`
computed from `net = p*(1-f)`, `qMax = ⌊(1-bandMin)*net/unitCost⌋`,
`m = 1 - qMax*unitCost/net`. -/
theorem chooseSaleCombo_selection_policy (c : ℚ) (hc : 0 < c) (hF : feasible c ≠ []) :
    (inBand c ≠ [] →
      ∃ r ∈ inBand c,
        choose_sale_combo (some c) = (some r.1, some r.2.1, some r.2.2) ∧
        (∀ s ∈ inBand c, s.2.2 ≤ r.2.2) ∧
        (∀ s ∈ inBand c, s.2.2 = r.2.2 → r.1 ≤ s.1)) ∧
    (inBand c = [] →
      ∃ r ∈ aboveBand c,
        choose_sale_combo (some c) = (some r.1, some r.2.1, some r.2.2) ∧
        (∀ s ∈ aboveBand c, r.2.2 - BAND_MAX ≤ s.2.2 - BAND_MAX) ∧
        (∀ s ∈ aboveBand c, s.2.2 - BAND_MAX = r.2.2 - BAND_MAX → r.1 ≤ s.1)) ∧
    choose_sale_combo (some 1000) =
      (some 2900, some 2, some (1 - (2 * 1000) / (2900 * (1 - FEE_RATE)))) := by
  refine ⟨?_, ?_, ?_⟩
  · intro hib
    obtain ⟨r, hsel⟩ := selBest_some_of_ne_nil inBandKey hib
    obtain ⟨hmem, hmin⟩ := selBest_eq_some hsel
    refine ⟨r, hmem, by rw [choose_reduce hc hF, hsel], fun s hs => ?_, fun s hs he => ?_⟩
    · have h := hmin s hs
      unfold keyLt inBandKey at h
      push_neg at h
      dsimp only at h
      linarith [h.1]
    · have h := hmin s hs
      unfold keyLt inBandKey at h
      push_neg at h
      dsimp only at h
      exact_mod_cast h.2 (by rw [he])
  · intro hib
    obtain ⟨r, hsel⟩ := selBest_some_of_ne_nil aboveKey (aboveBand_ne_nil hc hF hib)
    obtain ⟨hmem, hmin⟩ := selBest_eq_some hsel
    have hred : choose_sale_combo (some c) = (some r.1, some r.2.1, some r.2.2) := by
      rw [choose_reduce hc hF, selBest_eq_none.mpr hib, hsel]
    refine ⟨r, hmem, hred, fun s hs => ?_, fun s hs he => ?_⟩
    · have h := hmin s hs
      unfold keyLt aboveKey at h
      push_neg at h
      dsimp only at h
      exact h.1
    · have h := hmin s hs
      unfold keyLt aboveKey at h
      push_neg at h
      dsimp only at h
      exact_mod_cast h.2 he
  · rw [choose_1000]
    simp only [Prod.mk.injEq]
    norm_num [FEE_RATE]

/-- Witness for C1 at `unitCost = 1000`. -/
theorem chooseSaleCombo_selection_policy_witness :
    0 < (1000 : ℚ) ∧
    choose_sale_combo (some 1000) =
      (some 2900, some 2, some (1 - (2 * 1000) / (2900 * (1 - FEE_RATE)))) :=
  ⟨by norm_num,
    (chooseSaleCombo_selection_policy 1000 (by norm_num)
      (by rw [feasible_1000]; simp)).2.2⟩

/-- **C2.** `choose_sale_combo` returns either all three of
`(salePrice, saleQty, margin)` present or all three absent, never a
partial triple; and it returns all-absent exactly when the unit cost is
absent or `≤ 0`, or when no candidate price is feasible (every candidate
yields `q_max < 1`, or all margins are below `BAND_MIN`). -/
theorem chooseSaleCombo_all_or_none (uc : Option ℚ) :
    (choose_sale_combo uc = (none, none, none) ∨
      ∃ sp q m, choose_sale_combo uc = (some sp, some q, some m)) ∧
    (choose_sale_combo uc = (none, none, none) ↔
      uc = none ∨ ∃ c, uc = some c ∧
        (c ≤ 0 ∨
         (∀ sp ∈ SALE_CANDIDATES, ⌊(1 - BAND_MIN) * ((sp : ℚ) * (1 - FEE_RATE)) / c⌋ < 1) ∨
         (∀ r ∈ feasible c, r.2.2 < BAND_MIN))) := by
  cases uc with
  | none => exact ⟨Or.inl rfl, by simp [choose_sale_combo]⟩
  | some c =>
    by_cases hc : c ≤ 0
    · exact ⟨Or.inl (choose_none_of_nonpos hc),
        ⟨fun _ => Or.inr ⟨c, rfl, Or.inl hc⟩, fun _ => choose_none_of_nonpos hc⟩⟩
    · have hc' : 0 < c := lt_of_not_le hc
      by_cases hF : feasible c = []
      · have hqlt : ∀ sp ∈ SALE_CANDIDATES,
            ⌊(1 - BAND_MIN) * ((sp : ℚ) * (1 - FEE_RATE)) / c⌋ < 1 := by
          intro sp hsp
          by_contra hge
          push_neg at hge
          have hmem : (sp, ⌊(1 - BAND_MIN) * ((sp : ℚ) * (1 - FEE_RATE)) / c⌋,
              1 - ((⌊(1 - BAND_MIN) * ((sp : ℚ) * (1 - FEE_RATE)) / c⌋ : ℚ) * c) /
                ((sp : ℚ) * (1 - FEE_RATE))) ∈ feasible c := by
            unfold feasible
            refine List.mem_filterMap.mpr ⟨sp, hsp, ?_⟩
            rw [if_neg (not_le.mpr (net_pos sp hsp)), if_pos hge]
          exact (List.ne_nil_of_mem hmem) hF
        exact ⟨Or.inl (choose_none_of_nil hc hF),
          ⟨fun _ => Or.inr ⟨c, rfl, Or.inr (Or.inl hqlt)⟩,
           fun _ => choose_none_of_nil hc hF⟩⟩
      · obtain ⟨r, hrF, hr⟩ := choose_some_of_ne_nil hc' hF
        have hne : choose_sale_combo (some c) ≠ (none, none, none) := by
          rw [hr]; simp
        refine ⟨Or.inr ⟨r.1, r.2.1, r.2.2, hr⟩, ⟨fun h => absurd h hne, ?_⟩⟩
        rintro (h | ⟨c', hcc, hdisj⟩)
        · exact absurd h (by simp)
        · obtain rfl : c = c' := Option.some.inj hcc
          rcases hdisj with h | h | h
          · exact absurd h hc
          · obtain ⟨hsp, -, hqe, hq1, -⟩ := feasible_shape hrF
            exact absurd (h r.1 hsp) (not_lt.mpr (hqe ▸ hq1))
          · exact absurd (h r hrF) (not_lt.mpr (margin_lb hc' hrF))

/-- **C10.** For every `unitCost > 0`, whenever `choose_sale_combo`
returns a present triple its margin is at least `BAND_MIN` (the floor in
`q_max` forces `q_max * unitCost ≤ (1 - BAND_MIN) * net`), so the
feasible-but-all-margins-below-`BAND_MIN` fall-through can never occur:
with a nonempty feasible list the result is always a present triple. -/
theorem chooseSaleCombo_margin_ge_bandMin (c : ℚ) (hc : 0 < c) :
    (∀ sp q m, choose_sale_combo (some c) = (some sp, some q, some m) → BAND_MIN ≤ m) ∧
    (feasible c ≠ [] → ∃ sp q m,
      choose_sale_combo (some c) = (some sp, some q, some m)) := by
  constructor
  · intro sp q m h
    by_cases hF : feasible c = []
    · rw [choose_none_of_nil (not_le.mpr hc) hF] at h
      exact absurd (congrArg Prod.fst h) (by simp)
    · obtain ⟨r, hrF, hr⟩ := choose_some_of_ne_nil hc hF
      rw [hr] at h
      obtain ⟨-, -, hm⟩ : r.1 = sp ∧ r.2.1 = q ∧ r.2.2 = m := by
        simpa [Prod.ext_iff] using h
      exact hm ▸ margin_lb hc hrF
  · intro hF
    obtain ⟨r, -, hr⟩ := choose_some_of_ne_nil hc hF
    exact ⟨r.1, r.2.1, r.2.2, hr⟩

/-- Witness for C10 at `unitCost = 1000`. -/
theorem chooseSaleCombo_margin_ge_bandMin_witness :
    0 < (1000 : ℚ) ∧ BAND_MIN ≤ (131 : ℚ)/1131 :=
  ⟨by norm_num,
    (chooseSaleCombo_margin_ge_bandMin 1000 (by norm_num)).1 2900 2 (131/1131) choose_1000⟩

/-! ### TextParser (`strip_brand_prefix` / `parse_name_pack_expiry`,
crawler.py lines 66-100)

Python strings are modelled as `List Char`; each regular expression of
the source is translated to an explicit scanner with the same
leftmost-match, greedy semantics.  `\s` is modelled by the ASCII
whitespace characters (the only ones the crawled site produces). -/

/-- ASCII fragment of Python's `\s` / `str.strip()` whitespace. -/
def isWs (ch : Char) : Bool :=
  ch == ' ' || ch == '\t' || ch == '\n' || ch == '\r'

/-- The four characters excluded by the regex class in
`strip_brand_prefix`. -/
def isBracketCh (ch : Char) : Bool :=
  ch == '(' || ch == ')' || ch == '[' || ch == ']'

/-- `str.strip()`. -/
def stripWs (l : List Char) : List Char :=
  ((l.dropWhile isWs).reverse.dropWhile isWs).reverse

lemma length_dropWhile_le (p : Char → Bool) (l : List Char) :
    (l.dropWhile p).length ≤ l.length :=
  ((List.dropWhile_suffix p).sublist).length_le

/-- State machine for `re.sub(r"\s+", " ", s)`: `inRun` records whether
the previous character was whitespace, so each maximal whitespace run
emits exactly one space. -/
def collapseWsAux (inRun : Bool) : List Char → List Char
  | [] => []
  | c :: rest =>
    if isWs c then
      if inRun then collapseWsAux true rest
      else ' ' :: collapseWsAux true rest
    else c :: collapseWsAux false rest

/-- `re.sub(r"\s+", " ", s)`: replace every whitespace run by a single
space. -/
def collapseWs (l : List Char) : List Char :=
  collapseWsAux false l

/-- `str.splitlines()` for `\n`-separated text (the only line separator
in the crawled strings); a trailing empty piece may appear but is
filtered out by the caller, matching Python. -/
def splitNl : List Char → List (List Char)
  | [] => [[]]
  | '\n' :: rest => [] :: splitNl rest
  | c :: rest =>
    match splitNl rest with
    | [] => [[c]]
    | g :: gs => (c :: g) :: gs

/-- `int` on a nonempty string of decimal digits. -/
def digitsToNat (ds : List Char) : ℕ :=
  ds.foldl (fun n c => 10 * n + (c.toNat - 48)) 0

/-- `strip_brand_prefix`: drop a leading `Brand)` token.  The regex is
`^\s*([^()\[\]]{1,30})\)\s*(.+)$` with a final `.strip()` on group 2.
With `w` leading whitespace characters and the first bracket-class
character sitting at index `k`, the regex matches iff that character is
`)` and some split `\s*` = `i ≤ min w (k-1)` chars, group 1 = `k - i ∈
[1,30]` chars exists, i.e. `1 ≤ k ∧ k ≤ 30 + min w (k-1)`, and something
follows the `)`.  (`.+` cannot cross `\n`, but the caller only passes
single lines.)  Group 2 stripped is `stripWs tail`. -/
def stripBrand (name : List Char) : List Char :=
  if name = [] then name
  else
    let w := (name.takeWhile isWs).length
    let k := (name.takeWhile (fun c => ! isBracketCh c)).length
    match name.drop k with
    | ')' :: tail =>
      if 1 ≤ k ∧ k ≤ 30 + min w (k - 1) ∧ tail ≠ [] then stripWs tail else name
    | _ => name

/-- State machine for `re.finditer(r"\(([^)]*)\)", s)`: outside a group
(`cur = none`) scan for `(`; inside a group accumulate every
non-`)` character (the class `[^)]` includes `(`); a `)` closes the
group; an unclosed trailing group never matches. -/
def parenGroupsAux (cur : Option (List Char)) : List Char → List (List Char)
  | [] => []
  | c :: rest =>
    match cur with
    | none =>
      if c == '(' then parenGroupsAux (some []) rest
      else parenGroupsAux none rest
    | some acc =>
      if c == ')' then acc :: parenGroupsAux none rest
      else parenGroupsAux (some (acc ++ [c])) rest

/-- `re.finditer(r"\(([^)]*)\)", s)`: the non-overlapping parenthesized
groups, each one running from a `(` to the next `)`. -/
def parenGroups (l : List Char) : List (List Char) :=
  parenGroupsAux none l

/-- `re.search(r"(타|박|개)", s)`: leftmost occurrence of a unit marker. -/
def findUnit (g : List Char) : Option Char :=
  g.find? (fun c => c == '타' || c == '박' || c == '개')

/-- `re.search(r"(\d+)\s*개입", s)`: leftmost digit run followed by
optional whitespace and the literal `개입`; returns the parsed run. -/
def findQty : List Char → Option ℕ
  | [] => none
  | c :: rest =>
    if c.isDigit then
      if (((c :: rest).drop ((c :: rest).takeWhile Char.isDigit).length).dropWhile isWs).take 2
          = ['개', '입'] then
        some (digitsToNat ((c :: rest).takeWhile Char.isDigit))
      else findQty rest
    else findQty rest

/-- Shape test for the date regex `\d{2}\.\d{2}\.\d{2}`. -/
def isDatePat : List Char → Bool
  | [a, b, p1, d, e, p2, f, g] =>
    a.isDigit && b.isDigit && p1 == '.' && d.isDigit && e.isDigit && p2 == '.' &&
      f.isDigit && g.isDigit
  | _ => false

/-- `re.search(r"(\d{2}\.\d{2}\.\d{2})", s)`: leftmost date token. -/
def findDate : List Char → Option (List Char)
  | [] => none
  | c :: rest =>
    if isDatePat ((c :: rest).take 8) then some ((c :: rest).take 8)
    else findDate rest

/-- The `for m in re.finditer(...)` loop body of `parse_name_pack_expiry`:
search each group for a unit marker and a quantity; stop at the first
group providing either. -/
def scanGroups : List (List Char) → Option Char × Option ℕ
  | [] => (none, none)
  | g :: gs =>
    if (findUnit g).isSome || (findQty g).isSome then (findUnit g, findQty g)
    else scanGroups gs

/-- `" ".join(gs)`. -/
def joinSp : List (List Char) → List Char
  | [] => []
  | [g] => g
  | g :: gs => g ++ ' ' :: joinSp gs

/-- `parse_name_pack_expiry`: returns
`(product name, bundle unit, bundle quantity, expiry)`. -/
def parse_name_pack_expiry (raw_name : Option (List Char)) :
    Option (List Char) × Option Char × Option ℕ × Option (List Char) :=
  match raw_name with
  | none => (none, none, none, none)
  | some cs =>
    if cs = [] then (none, none, none, none)
    else
      let lines := (splitNl cs).filterMap fun l =>
        if stripWs l = [] then none else some (collapseWs (stripWs l))
      let base0 := match lines with
        | [] => stripWs cs
        | b :: _ => b
      let tail := joinSp (lines.drop 1)
      let uq := scanGroups (parenGroups tail)
      (some (stripBrand base0), uq.1, uq.2, findDate tail)

/-- **C3.** `parse_name_pack_expiry` maps `"오성) 레몬맛 샌드 227g"` to
name `"레몬맛 샌드 227g"` with unit, qty and expiry all absent (the
leading brand token is stripped), and maps `"초코바\n(박 12개입)
(유통기한 25.03.10)"` to name `"초코바"`, unit `"박"`, qty `12`, expiry
`"25.03.10"`. -/
theorem parseNamePackExpiry_examples :
    parse_name_pack_expiry (some ("오성) 레몬맛 샌드 227g".data)) =
      (some ("레몬맛 샌드 227g".data), none, none, none) ∧
    parse_name_pack_expiry (some ("초코바\n(박 12개입) (유통기한 25.03.10)".data)) =
      (some ("초코바".data), some '박', some 12, some ("25.03.10".data)) := by
  constructor <;> decide

/-! ### CatalogWalker page estimate (`get_max_page_on`, crawler.py lines
156-174, and the clamping in `crawl_category`, lines 309-312)

The rendered page is abstracted by the query results the code actually
reads: the optional "last page" element (with its optional `href`
attribute) and the `href` attributes of the anchors matching
`a[href*="page="]`, in document order. -/

structure PageAnchors where
  lastHref : Option (Option String)
  pageHrefs : List (Option String)

/-- `re.search(r"[?&]page=(\d+)", h)` followed by `int` on the digits. -/
def parsePageParam : List Char → Option ℕ
  | [] => none
  | c :: rest =>
    if (c == '?' || c == '&') && (rest.take 5 == ['p', 'a', 'g', 'e', '=']) then
      if (rest.drop 5).takeWhile Char.isDigit = [] then parsePageParam rest
      else some (digitsToNat ((rest.drop 5).takeWhile Char.isDigit))
    else parsePageParam rest

/-- One iteration of the `for a in links[:25]` loop:
`if v > mx: mx = v`. -/
def scanStep (mx : ℕ) (a : Option String) : ℕ :=
  match parsePageParam (a.getD "").data with
  | some v => if mx < v then v else mx
  | none => mx

/-- The fallback scan over the first 25 `page=`-bearing anchors, starting
from `mx = 1`. -/
def fallbackScan (links : List (Option String)) : ℕ :=
  (links.take 25).foldl scanStep 1

/-- `get_max_page_on`: prefer the explicit last-page link's `page=`
parameter; otherwise scan the first 25 matching anchors. -/
def get_max_page_on (pg : PageAnchors) : ℕ :=
  match pg.lastHref with
  | some attr =>
    match parsePageParam (attr.getD "").data with
    | some n => n
    | none => fallbackScan pg.pageHrefs
  | none => fallbackScan pg.pageHrefs

/-- The page estimate actually used by `crawl_category`:
`max_page = get_max_page_on(page)`, then `if max_page < 1: max_page = 1`,
then `if MAX_PAGES and max_page > MAX_PAGES: max_page = MAX_PAGES`. -/
def pageEstimate (pg : PageAnchors) (maxPages : ℕ) : ℕ :=
  let mp := get_max_page_on pg
  let mp1 := if mp < 1 then 1 else mp
  if maxPages ≠ 0 ∧ mp1 > maxPages then maxPages else mp1

/-- The fallback as worded by the claim: "the maximum page number over
the first 25 page-number-bearing anchors ... defaults to 1 when no such
anchor yields a number". -/
def claimFallback (links : List (Option String)) : ℕ :=
  match (links.take 25).filterMap (fun a => parsePageParam (a.getD "").data) with
  | [] => 1
  | v :: tl => tl.foldl max v

/-- The claim's wording of the estimate, taken literally: if an explicit
last-page link with a page-number query parameter exists, its page number
is used; otherwise the fallback maximum; clamped to `maxPages` when
`maxPages` is non-zero.  (The claim never raises a sub-1 estimate
to 1.) -/
def pageEstimateClaim (pg : PageAnchors) (maxPages : ℕ) : ℕ :=
  let est := match pg.lastHref with
    | some attr =>
      match parsePageParam (attr.getD "").data with
      | some n => n
      | none => claimFallback pg.pageHrefs
    | none => claimFallback pg.pageHrefs
  if maxPages ≠ 0 then min est maxPages else est

/-- The amended wording: identical to `pageEstimateClaim` except that the
estimate is raised to a minimum of 1 before the `maxPages` clamp. -/
def pageEstimateAmended (pg : PageAnchors) (maxPages : ℕ) : ℕ :=
  let base := match pg.lastHref with
    | some attr =>
      match parsePageParam (attr.getD "").data with
      | some n => n
      | none => claimFallback pg.pageHrefs
    | none => claimFallback pg.pageHrefs
  let est := max base 1
  if maxPages ≠ 0 then min est maxPages else est

lemma foldl_scanStep_eq (l : List (Option String)) :
    ∀ init, l.foldl scanStep init =
      (l.filterMap (fun a => parsePageParam (a.getD "").data)).foldl max init := by
  induction l with
  | nil => intro init; rfl
  | cons a l ih =>
    intro init
    simp only [List.foldl_cons, List.filterMap_cons]
    cases h : parsePageParam (a.getD "").data with
    | none =>
      rw [show scanStep init a = init by unfold scanStep; rw [h]]
      exact ih init
    | some v =>
      rw [show scanStep init a = max init v by
        unfold scanStep
        rw [h]
        dsimp only
        rcases lt_or_ge init v with h' | h'
        · rw [if_pos h', max_eq_right (le_of_lt h')]
        · rw [if_neg (not_lt.mpr h'), max_eq_left h']]
      simp only [List.foldl_cons]
      exact ih (max init v)

lemma le_foldl_max (tl : List ℕ) : ∀ a, a ≤ tl.foldl max a := by
  induction tl with
  | nil => intro a; exact le_refl a
  | cons c tl ih =>
    intro a
    simp only [List.foldl_cons]
    exact le_trans (Nat.le_max_left a c) (ih (max a c))

lemma foldl_max_exchange (tl : List ℕ) :
    ∀ a b, max (tl.foldl max a) b = tl.foldl max (max a b) := by
  induction tl with
  | nil => intro a b; rfl
  | cons c tl ih =>
    intro a b
    simp only [List.foldl_cons]
    rw [ih (max a c) b,
      show max (max a c) b = max (max a b) c by
        rw [max_assoc, max_comm c b, ← max_assoc]]

lemma fallbackScan_claim (ls : List (Option String)) :
    max (fallbackScan ls) 1 = max (claimFallback ls) 1 := by
  unfold fallbackScan claimFallback
  rw [foldl_scanStep_eq]
  cases hvs : (ls.take 25).filterMap (fun a => parsePageParam (a.getD "").data) with
  | nil => rfl
  | cons v tl =>
    simp only [List.foldl_cons]
    rw [foldl_max_exchange tl v 1]
    have h1 : 1 ≤ tl.foldl max (max 1 v) :=
      le_trans (le_max_left 1 v) (le_foldl_max tl (max 1 v))
    rw [max_eq_left h1, max_comm v 1]

/-- **C9** (counterexample to the literal claim): a last-page link whose
`href` is `"?page=0"` carries the page-number query parameter `0`; the
claim says this page number is used (then clamped), giving an estimate of
`0`, but `crawl_category` raises any estimate below 1 to 1. -/
theorem pageEstimate_claim_counterexample :
    pageEstimate ⟨some (some "?page=0"), []⟩ 0 = 1 ∧
    pageEstimateClaim ⟨some (some "?page=0"), []⟩ 0 = 0 ∧
    pageEstimate ⟨some (some "?page=0"), []⟩ 0 ≠
      pageEstimateClaim ⟨some (some "?page=0"), []⟩ 0 := by
  refine ⟨by decide, by decide, by decide⟩

/-- **C9** (amended).  The page-count estimate equals the claim's
description amended with a floor of 1: last-page link's page number if
present, otherwise the maximum page number over the first 25
`page=`-bearing anchors (defaulting to 1), the result raised to at least
1, and clamped to `maxPages` whenever `maxPages` is non-zero. -/
theorem pageEstimate_eq_amended (pg : PageAnchors) (maxPages : ℕ) :
    pageEstimate pg maxPages = pageEstimateAmended pg maxPages := by
  unfold pageEstimate pageEstimateAmended get_max_page_on
  have hbase : ∀ n : ℕ, (if n < 1 then 1 else n) = max n 1 := by
    intro n
    rcases Nat.lt_or_ge n 1 with h' | h'
    · rw [if_pos h', max_eq_right (by omega : n ≤ 1)]
    · rw [if_neg (not_lt.mpr h'), max_eq_left h']
  have hclamp : ∀ e : ℕ, (if maxPages ≠ 0 ∧ e > maxPages then maxPages else e) =
      (if maxPages ≠ 0 then min e maxPages else e) := by
    intro e
    by_cases hm : maxPages = 0
    · simp [hm]
    · by_cases he : e > maxPages
      · rw [if_pos ⟨hm, he⟩, if_pos hm, min_eq_right (le_of_lt he)]
      · rw [if_neg (fun hand => he hand.2), if_pos hm, min_eq_left (not_lt.mp he)]
  cases pg.lastHref with
  | none =>
    dsimp only
    rw [hbase, hclamp, fallbackScan_claim]
  | some attr =>
    cases hp : parsePageParam (attr.getD "").data with
    | some n =>
      dsimp only
      rw [hp]
      rw [hbase, hclamp]
    | none =>
      dsimp only
      rw [hp]
      rw [hbase, hclamp, fallbackScan_claim]

/-! ### StockEnricher, HTTP strategy (`fetch_stock_http`, crawler.py
lines 330-345)

```python
async def fetch_stock_http(request_ctx, url):
    async def _once():
        try:
            resp = await request_ctx.get(url, timeout=STOCK_TIMEOUT_MS)
            if not resp.ok:
                return None
            html = await resp.text()
            stocks = [int(s.replace(",", ""))
                      for s in re.findall(r'data-stock\s*=\s*["\x27]?([\d,]+)', html)]
            return max(stocks) if stocks else None
        except:
            return None
    v = await _once()
    if v is not None:
        return v
    return await _once()
```

The outcome of one GET is abstracted as `FetchOutcome`: a raised
error/timeout, or a response with its `ok` flag and body. -/

inductive FetchOutcome where
  | err : FetchOutcome
  | resp : Bool → String → FetchOutcome

/-- `s.replace(",", "")` on a `[\d,]+` match. -/
def stripCommas (m : List Char) : List Char :=
  m.filter (fun c => c != ',')

/-- `max` on a nonempty list of naturals (`0` seed is exact there). -/
def maxNat (l : List ℕ) : ℕ :=
  l.foldl max 0

/-- The match of `data-stock\s*=\s*["\x27]?([\d,]+)` anchored at the head
of `s`: the literal, optional whitespace, `=`, optional whitespace, an
optional single/double quote, then a nonempty greedy `[\d,]+` run. -/
def stockMatchAt (s : List Char) : Option (List Char) :=
  if s.take 10 = "data-stock".data then
    match (s.drop 10).dropWhile isWs with
    | '=' :: a2 =>
      let a3 := a2.dropWhile isWs
      let a4 := match a3 with
        | q :: t => if q == Char.ofNat 34 || q == Char.ofNat 39 then t else a3
        | [] => a3
      let run := a4.takeWhile (fun ch => ch.isDigit || ch == ',')
      if run = [] then none else some run
    | _ => none
  else none

/-- `re.findall` of the stock pattern.  The scan tries every position;
this coincides with `findall`'s non-overlapping scan because the literal
`data-stock` cannot reoccur strictly inside a match (a match past its
first character holds only `ata-stock`, whitespace, `=`, a quote, digits
and commas — never a `d`). -/
def findStocks : List Char → List (List Char)
  | [] => []
  | c :: rest =>
    match stockMatchAt (c :: rest) with
    | some run => run :: findStocks rest
    | none => findStocks rest

/-- One `_once()` attempt.  A raised error or timeout, a non-ok response,
an occurrence whose comma-stripped text is empty (Python's `int` raises
there), and an occurrence-free body all yield `None` through the bare
`except`. -/
def attemptResult : FetchOutcome → Option ℕ
  | .err => none
  | .resp false _ => none
  | .resp true body =>
    if findStocks body.data = [] then none
    else if (findStocks body.data).all (fun m => stripCommas m != []) then
      some (maxNat ((findStocks body.data).map (fun m => digitsToNat (stripCommas m))))
    else none

/-- `fetch_stock_http`: the first attempt's value if any, otherwise the
retry's.  The function traps every exception, so its result type is a
plain `Option`. -/
def fetch_stock_http (o1 o2 : FetchOutcome) : Option ℕ :=
  match attemptResult o1 with
  | some v => some v
  | none => attemptResult o2

/-- Number of GET requests `fetch_stock_http` issues: one when the first
attempt returns a value, otherwise exactly two. -/
def httpAttempts (o1 : FetchOutcome) : ℕ :=
  match attemptResult o1 with
  | some _ => 1
  | none => 2

/-! ### StockEnricher, dialog strategy (`fetch_stock_from_detail`,
crawler.py lines 350-464)

The external browser interactions are abstracted into a `DialogEnv`
describing the outcome of each call; `PwError.timeout` is the Playwright
`TimeoutError` (the only class the selector loops catch) and
`PwError.other` any other raised exception. -/

inductive PwError where
  | timeout : PwError
  | other : PwError
deriving DecidableEq

/-- The attributes of one candidate quantity-input element that the
ranking reads. -/
structure QtyElem where
  name : Option String
  dataStock : Option String

/-- `needle` is a prefix of `hay`. -/
def startsWith : List Char → List Char → Bool
  | [], _ => true
  | _ :: _, [] => false
  | n :: ns, h :: hs => n == h && startsWith ns hs

/-- Python's `needle in hay` substring test. -/
def containsSub (needle : List Char) : List Char → Bool
  | [] => needle.isEmpty
  | c :: rest => startsWith needle (c :: rest) || containsSub needle rest

/-- The environment of one dialog-strategy lookup: the outcome of the
page navigation, the two `data-stock` DOM reads, the per-selector
quantity-input queries, the sentinel interaction, the captured dialog
message, the per-selector validation-text queries, and the final
`input_value` read. -/
structure DialogEnv where
  gotoErr : Option PwError
  domVals1 : Except Unit (List (Option String))
  selRes : ℕ → Except PwError (List QtyElem)
  interactErr : Option PwError
  dialogText : Option String
  textRes : ℕ → Except PwError (Option String)
  domVals2 : Except Unit (List (Option String))
  inputVal : Except Unit (Option String)

/-- `read_dom_stocks`: collect `data-stock` attribute values that are
truthy and contain a digit, and take their maximum; any internal error is
trapped to `None`. -/
def read_dom_stocks : Except Unit (List (Option String)) → Option ℕ
  | .error _ => none
  | .ok vals =>
    match vals.filterMap (fun v =>
        match v with
        | none => none
        | some s =>
          if s = "" then none
          else if s.data.filter Char.isDigit = [] then none
          else some (digitsToNat (s.data.filter Char.isDigit))) with
    | [] => none
    | f :: fs => some (maxNat (f :: fs))

/-- The quantity-input selector candidates (a pinned external
contract). -/
def QTY_SELECTORS : List String :=
  ["input[name=\x27goodsCnt[]\x27]", "input[name=\x27goodsCnt\x27]",
   "input[name^=\x27goodsCnt\x27]",
   "[id*=\x27option_display\x27] input[type=\x27text\x27]",
   ".goods_qty input[type=\x27text\x27]",
   "input.text.goodsCnt_0", "input.text", "input[type=\x27text\x27]"]

/-- `rank = (1 if "goodsCnt" in name else 0) + (1 if ds else 0)` with
`name = get_attribute("name") or ""` and `ds` truthy. -/
def elemRank (el : QtyElem) : ℕ :=
  (if containsSub ("goodsCnt".data) ((el.name.getD "").data) then 1 else 0) +
  (if (el.dataStock.getD "") = "" then 0 else 1)

/-- `ranked.sort(key=lambda x: -x[0]); ranked[0][1]`: first element of
maximal rank (Python's sort is stable). -/
def pickBestElem (e : QtyElem) (es : List QtyElem) : QtyElem :=
  es.foldl (fun b y => if elemRank b < elemRank y then y else b) e

/-- The `for sel in selectors` loop: a Playwright timeout or an empty
query result moves to the next selector, any other raised error
propagates, and a nonempty result returns the ranked pick; exhaustion
returns no element (`if not qty: return None`). -/
def qtyLoopFrom (selRes : ℕ → Except PwError (List QtyElem)) (i : ℕ) :
    ℕ → Except PwError (Option QtyElem)
  | 0 => .ok none
  | n + 1 =>
    match selRes i with
    | .error .timeout => qtyLoopFrom selRes (i + 1) n
    | .error .other => .error .other
    | .ok [] => qtyLoopFrom selRes (i + 1) n
    | .ok (e :: es) => .ok (some (pickBestElem e es))

/-- The validation-text selector candidates (pinned contract). -/
def TEXT_SELECTORS : List String :=
  ["text=최대수량은", "div:has-text(\x27최대수량은\x27)",
   "[class*=\x27alert\x27]:has-text(\x27최대수량은\x27)",
   "#option_display_item_0 :has-text(\x27최대수량은\x27)"]

/-- `re.search(r"최대수량은\s*([\d,]+)\s*이하", s)`: the literal, optional
whitespace, a nonempty greedy `[\d,]+` run, optional whitespace, the
literal `이하`; returns the captured run of the leftmost match. -/
def findMaxQtyGroup : List Char → Option (List Char)
  | [] => none
  | c :: rest =>
    if (c :: rest).take 5 = "최대수량은".data then
      if ((((c :: rest).drop 5).dropWhile isWs).takeWhile
            (fun ch => ch.isDigit || ch == ',')) = [] then findMaxQtyGroup rest
      else if (((((c :: rest).drop 5).dropWhile isWs).drop
            ((((c :: rest).drop 5).dropWhile isWs).takeWhile
              (fun ch => ch.isDigit || ch == ',')).length).dropWhile isWs).take 2
            = "이하".data then
        some ((((c :: rest).drop 5).dropWhile isWs).takeWhile
          (fun ch => ch.isDigit || ch == ','))
      else findMaxQtyGroup rest
    else findMaxQtyGroup rest

/-- `int(m.group(1).replace(",", ""))`: raises (`PwError.other`) when the
matched run holds only commas. -/
def parseRun (run : List Char) : Except PwError ℕ :=
  if stripCommas run = [] then .error .other
  else .ok (digitsToNat (stripCommas run))

/-- Step 4 of the lookup: re-read `data-stock`, then the silent-sentinel
heuristic on `input_value()` (its own `try/except: pass`), else `None`. -/
def sentinelPhase (env : DialogEnv) (treatSilentAsZero : Bool) :
    Except PwError (Option ℕ) :=
  match read_dom_stocks env.domVals2 with
  | some v => .ok (some v)
  | none =>
    match env.inputVal with
    | .error _ => .ok none
    | .ok v =>
      match v with
      | some s =>
        if s ≠ "" ∧ s.data.filter Char.isDigit = "10000".data then
          .ok (if treatSilentAsZero then some 0 else none)
        else .ok none
      | none => .ok none

/-- The `for sel in [...]` validation-text loop: a timeout moves on, any
other raised error propagates, a found element whose text matches the
pattern returns the parsed bound, otherwise move on; exhaustion falls
through to `sentinelPhase`. -/
def textPhase (env : DialogEnv) (treatSilentAsZero : Bool) (i : ℕ) :
    ℕ → Except PwError (Option ℕ)
  | 0 => sentinelPhase env treatSilentAsZero
  | n + 1 =>
    match env.textRes i with
    | .error .timeout => textPhase env treatSilentAsZero (i + 1) n
    | .error .other => .error .other
    | .ok t =>
      match findMaxQtyGroup (t.getD "").data with
      | some run =>
        match parseRun run with
        | .error e => .error e
        | .ok v => .ok (some v)
      | none => textPhase env treatSilentAsZero (i + 1) n

/-- The body of the `try:` block of `fetch_stock_from_detail`, in lookup
order: navigation, direct `data-stock` read, quantity-input search,
sentinel interaction, dialog message, validation text, `data-stock`
re-read, silent-sentinel heuristic. -/
def dialogBody (env : DialogEnv) (treatSilentAsZero : Bool) :
    Except PwError (Option ℕ) :=
  match env.gotoErr with
  | some e => .error e
  | none =>
    match read_dom_stocks env.domVals1 with
    | some v => .ok (some v)
    | none =>
      match qtyLoopFrom env.selRes 0 QTY_SELECTORS.length with
      | .error e => .error e
      | .ok none => .ok none
      | .ok (some _) =>
        match env.interactErr with
        | some e => .error e
        | none =>
          match env.dialogText with
          | some t =>
            if t ≠ "" then
              match findMaxQtyGroup t.data with
              | some run =>
                match parseRun run with
                | .error e => .error e
                | .ok v => .ok (some v)
              | none => textPhase env treatSilentAsZero 0 TEXT_SELECTORS.length
            else textPhase env treatSilentAsZero 0 TEXT_SELECTORS.length
          | none => textPhase env treatSilentAsZero 0 TEXT_SELECTORS.length

/-- Result of one dialog-strategy lookup together with whether the
transient page view was closed. -/
structure DetailResult where
  result : Except PwError (Option ℕ)
  pageClosed : Bool

/-- `fetch_stock_from_detail`: `tmp = await page.context.new_page()` is
followed by `try: ... finally: await tmp.close()`, so the page is closed
whatever the body does — on a value, on an early `return None`, and on a
raised exception alike. -/
def fetch_stock_from_detail (env : DialogEnv) (treatSilentAsZero : Bool) :
    DetailResult :=
  { result := dialogBody env treatSilentAsZero, pageClosed := true }

/-- An environment where the page exposes `data-stock="7"` directly. -/
def dEnvValue : DialogEnv :=
  { gotoErr := none, domVals1 := .ok [some "7"],
    selRes := fun _ => .error .timeout, interactErr := none,
    dialogText := none, textRes := fun _ => .error .timeout,
    domVals2 := .error (), inputVal := .error () }

/-- An environment where no quantity input is ever found: the lookup
early-returns absent. -/
def dEnvAbsent : DialogEnv :=
  { gotoErr := none, domVals1 := .error (),
    selRes := fun _ => .error .timeout, interactErr := none,
    dialogText := none, textRes := fun _ => .error .timeout,
    domVals2 := .error (), inputVal := .error () }

/-- An environment where the navigation itself times out: the exception
escapes the lookup. -/
def dEnvRaise : DialogEnv :=
  { gotoErr := some .timeout, domVals1 := .error (),
    selRes := fun _ => .error .timeout, interactErr := none,
    dialogText := none, textRes := fun _ => .error .timeout,
    domVals2 := .error (), inputVal := .error () }

/-- **C7.** In the dialog strategy the transient page opened for a target
is closed on every exit path of the lookup — normal return with a value,
early return with absent, and any raised exception — as witnessed by one
environment of each kind. -/
theorem detailPage_always_closed :
    (∀ env flag, (fetch_stock_from_detail env flag).pageClosed = true) ∧
    ((fetch_stock_from_detail dEnvValue true).result = .ok (some 7) ∧
      (fetch_stock_from_detail dEnvValue true).pageClosed = true) ∧
    ((fetch_stock_from_detail dEnvAbsent true).result = .ok none ∧
      (fetch_stock_from_detail dEnvAbsent true).pageClosed = true) ∧
    ((fetch_stock_from_detail dEnvRaise true).result = .error .timeout ∧
      (fetch_stock_from_detail dEnvRaise true).pageClosed = true) :=
  ⟨fun _ _ => rfl, ⟨rfl, rfl⟩, ⟨rfl, rfl⟩, ⟨rfl, rfl⟩⟩

/-! ### StockEnricher driver (`enrich_stocks_concurrently`, crawler.py
lines 469-502)

A listing row is the dict built by `parse_card_to_row_base`; field names
translate the Korean keys (카테고리, 상품명, 유통기한, 묶음당수량,
묶음단가, 개당단가, 재고수량, 판매수량, 판매가, 마진율, URL,
이미지URL).

The worker pool is modelled by processing the target list in task order:
every write-back goes to the target's own row index, indices are
pairwise distinct, so any completion order produces the same final list;
a worker's raised exception is re-raised by `await fut` in the
`as_completed` loop and aborts the run, which the model renders as the
`.error` short-circuit. -/

structure Row where
  category : String
  name : String
  expiry : Option String
  packQty : Option ℕ
  bundlePrice : Option ℤ
  unitCost : Option ℤ
  stockQty : Option ℕ
  sellQty : Option ℤ
  sellPrice : Option ℤ
  margin : Option ℚ
  url : Option String
  thumb : Option String
deriving DecidableEq

/-- `rows[idx]["재고수량"] = stock`. -/
def setStock (r : Row) (v : Option ℕ) : Row :=
  { r with stockQty := v }

/-- In-place update of the row at index `i`. -/
def setStockAt : List Row → ℕ → Option ℕ → List Row
  | [], _, _ => []
  | r :: rs, 0, v => setStock r v :: rs
  | r :: rs, n + 1, v => r :: setStockAt rs n v

/-- `[(i, r["URL"]) for i, r in enumerate(rows) if r.get("URL")]`
(a `None` or empty URL is falsy), from start index `n`. -/
def targetsFrom (n : ℕ) : List Row → List (ℕ × String)
  | [] => []
  | r :: rs =>
    match r.url with
    | some u => if u = "" then targetsFrom (n + 1) rs else (n, u) :: targetsFrom (n + 1) rs
    | none => targetsFrom (n + 1) rs

def targetsOf (rows : List Row) : List (ℕ × String) :=
  targetsFrom 0 rows

inductive StockMode where
  | http : StockMode
  | dialog : StockMode
deriving DecidableEq

/-- `worker_http`: `fetch_stock_http` traps every exception, so the
worker's type is exception-free. -/
def worker_http (httpEnv : ℕ → FetchOutcome × FetchOutcome) (i : ℕ) : ℕ × Option ℕ :=
  (i, fetch_stock_http (httpEnv i).1 (httpEnv i).2)

/-- `worker_dialog`: whatever `fetch_stock_from_detail` raises escapes
the worker (its page is closed first by the `finally`). -/
def worker_dialog (dialogEnv : ℕ → DialogEnv) (flag : Bool) (i : ℕ) :
    Except PwError (ℕ × Option ℕ) :=
  match (fetch_stock_from_detail (dialogEnv i) flag).result with
  | .error e => .error e
  | .ok v => .ok (i, v)

/-- The `for fut in asyncio.as_completed(tasks)` loop: collect each
worker's `(idx, stock)` and write it back, or re-raise its exception. -/
def enrichGo (mode : StockMode) (flag : Bool)
    (httpEnv : ℕ → FetchOutcome × FetchOutcome) (dialogEnv : ℕ → DialogEnv) :
    List (ℕ × String) → List Row → Except PwError (List Row)
  | [], rs => .ok rs
  | (i, _) :: ts, rs =>
    match mode with
    | .http =>
      enrichGo mode flag httpEnv dialogEnv ts
        (setStockAt rs (worker_http httpEnv i).1 (worker_http httpEnv i).2)
    | .dialog =>
      match worker_dialog dialogEnv flag i with
      | .error e => .error e
      | .ok (idx, v) => enrichGo mode flag httpEnv dialogEnv ts (setStockAt rs idx v)

/-- `enrich_stocks_concurrently`. -/
def enrich_stocks_concurrently (enableStock : Bool) (mode : StockMode) (flag : Bool)
    (httpEnv : ℕ → FetchOutcome × FetchOutcome) (dialogEnv : ℕ → DialogEnv)
    (rows : List Row) : Except PwError (List Row) :=
  if ¬ enableStock then .ok rows
  else if targetsOf rows = [] then .ok rows
  else enrichGo mode flag httpEnv dialogEnv (targetsOf rows) rows

/-- All fields of a row except the stock quantity. -/
def rowFrame (r : Row) :
    String × String × Option String × Option ℕ × Option ℤ × Option ℤ ×
      Option ℤ × Option ℤ × Option ℚ × Option String × Option String :=
  (r.category, r.name, r.expiry, r.packQty, r.bundlePrice, r.unitCost,
    r.sellQty, r.sellPrice, r.margin, r.url, r.thumb)

lemma length_setStockAt (rs : List Row) : ∀ i v, (setStockAt rs i v).length = rs.length := by
  induction rs with
  | nil => intro i v; rfl
  | cons r rs ih =>
    intro i v
    cases i with
    | zero => rfl
    | succ n => simp only [setStockAt, List.length_cons, ih n v]

lemma getElem?_setStockAt_frame (rs : List Row) :
    ∀ (i : ℕ) (v : Option ℕ) (j : ℕ),
      ((setStockAt rs i v)[j]?).map rowFrame = (rs[j]?).map rowFrame := by
  induction rs with
  | nil => intro i v j; rfl
  | cons r rs ih =>
    intro i v j
    cases i with
    | zero =>
      cases j with
      | zero => simp only [setStockAt, List.getElem?_cons_zero, Option.map_some]; rfl
      | succ m => simp only [setStockAt, List.getElem?_cons_succ]
    | succ n =>
      cases j with
      | zero => simp only [setStockAt, List.getElem?_cons_zero]
      | succ m =>
        simp only [setStockAt, List.getElem?_cons_succ]
        exact ih n v m

lemma getElem?_setStockAt_ne (rs : List Row) :
    ∀ (i : ℕ) (v : Option ℕ) (j : ℕ), j ≠ i → (setStockAt rs i v)[j]? = rs[j]? := by
  induction rs with
  | nil => intro i v j _; rfl
  | cons r rs ih =>
    intro i v j hne
    cases i with
    | zero =>
      cases j with
      | zero => exact absurd rfl hne
      | succ m => simp only [setStockAt, List.getElem?_cons_succ]
    | succ n =>
      cases j with
      | zero => simp only [setStockAt, List.getElem?_cons_zero]
      | succ m =>
        simp only [setStockAt, List.getElem?_cons_succ]
        exact ih n v m (fun h => hne (by rw [h]))

lemma enrichGo_props (mode : StockMode) (flag : Bool)
    (httpEnv : ℕ → FetchOutcome × FetchOutcome) (dialogEnv : ℕ → DialogEnv) :
    ∀ (ts : List (ℕ × String)) (rs out : List Row),
      enrichGo mode flag httpEnv dialogEnv ts rs = .ok out →
      out.length = rs.length ∧
      (∀ (j : ℕ), (out[j]?).map rowFrame = (rs[j]?).map rowFrame) ∧
      (∀ (j : ℕ), (∀ u, (j, u) ∉ ts) → out[j]? = rs[j]?) := by
  intro ts
  induction ts with
  | nil =>
    intro rs out h
    obtain rfl : rs = out := by simpa [enrichGo] using h
    exact ⟨rfl, fun j => rfl, fun j _ => rfl⟩
  | cons t ts ih =>
    intro rs out h
    obtain ⟨i, u⟩ := t
    have step : ∀ idx v, idx = i →
        enrichGo mode flag httpEnv dialogEnv ts (setStockAt rs idx v) = .ok out →
        out.length = rs.length ∧
        (∀ (j : ℕ), (out[j]?).map rowFrame = (rs[j]?).map rowFrame) ∧
        (∀ (j : ℕ), (∀ u', (j, u') ∉ (i, u) :: ts) → out[j]? = rs[j]?) := by
      intro idx v hidx h'
      obtain ⟨hlen, hframe, huntouched⟩ := ih (setStockAt rs idx v) out h'
      refine ⟨hlen.trans (length_setStockAt rs idx v), ?_, ?_⟩
      · intro j
        exact (hframe j).trans (getElem?_setStockAt_frame rs idx v j)
      · intro j hj
        have hnotts : ∀ u', (j, u') ∉ ts := fun u' hmem =>
          hj u' (List.mem_cons_of_mem _ hmem)
        exact (huntouched j hnotts).trans
          (getElem?_setStockAt_ne rs idx v j (fun hji => by
            rw [hidx] at hji
            exact hj u (by rw [hji]; exact List.mem_cons_self _ _)))
    cases mode with
    | http =>
      have h' : enrichGo .http flag httpEnv dialogEnv ts
          (setStockAt rs (worker_http httpEnv i).1 (worker_http httpEnv i).2) = .ok out := h
      exact step (worker_http httpEnv i).1 (worker_http httpEnv i).2 rfl h'
    | dialog =>
      revert h
      show ((match worker_dialog dialogEnv flag i with
        | .error e => .error e
        | .ok (idx, v) => enrichGo .dialog flag httpEnv dialogEnv ts (setStockAt rs idx v)) :
          Except PwError (List Row)) = .ok out → _
      cases hw : worker_dialog dialogEnv flag i with
      | error e => intro h; exact absurd h (by simp)
      | ok p =>
        obtain ⟨idx, v⟩ := p
        intro h
        have hidx : idx = i := by
          unfold worker_dialog at hw
          cases hres : (fetch_stock_from_detail (dialogEnv i) flag).result with
          | error e => rw [hres] at hw; exact absurd hw (by simp)
          | ok v' =>
            rw [hres] at hw
            have h2 := Except.ok.inj hw
            injection h2 with h3 h4
            exact h3.symm
        exact step idx v hidx h

lemma targetsFrom_mem (rs : List Row) :
    ∀ (n j : ℕ) (u : String), (j, u) ∈ targetsFrom n rs →
      n ≤ j ∧ ∃ r, rs[j - n]? = some r ∧ r.url = some u := by
  induction rs with
  | nil => intro n j u h; exact absurd h (List.not_mem_nil _)
  | cons r rs ih =>
    intro n j u h
    unfold targetsFrom at h
    have hstep : (j, u) ∈ targetsFrom (n + 1) rs →
        n ≤ j ∧ ∃ r', (r :: rs)[j - n]? = some r' ∧ r'.url = some u := by
      intro hmem
      obtain ⟨hle, r', hr', hu⟩ := ih (n + 1) j u hmem
      refine ⟨by omega, r', ?_, hu⟩
      have hidx : j - n = (j - (n + 1)) + 1 := by omega
      rw [hidx, List.getElem?_cons_succ]
      exact hr'
    cases hurl : r.url with
    | none =>
      rw [hurl] at h
      dsimp only at h
      exact hstep h
    | some u0 =>
      rw [hurl] at h
      dsimp only at h
      by_cases hu0 : u0 = ""
      · rw [if_pos hu0] at h; exact hstep h
      · rw [if_neg hu0] at h
        rcases List.mem_cons.mp h with heq | hmem
        · have h12 : j = n ∧ u = u0 := by
            injection heq with h1 h2
            exact ⟨h1, h2⟩
          obtain ⟨rfl, rfl⟩ := h12
          refine ⟨le_refl _, r, ?_, hurl⟩
          rw [Nat.sub_self]
          exact List.getElem?_cons_zero
        · exact hstep hmem

lemma not_target_of_no_url {rows : List Row} {j : ℕ} {r : Row}
    (hj : rows[j]? = some r) (hurl : r.url = none) :
    ∀ u, (j, u) ∉ targetsOf rows := by
  intro u hmem
  obtain ⟨-, r', hr', hu⟩ := targetsFrom_mem rows 0 j u hmem
  rw [Nat.sub_zero] at hr'
  rw [hj] at hr'
  obtain rfl : r = r' := Option.some.inj hr'
  rw [hurl] at hu
  exact Option.noConfusion hu

/-- **C6.** `enrich_stocks_concurrently` returns the listing collection
with the same length and order, mutating only the stock-quantity field
(every other field unchanged); rows without a URL are returned entirely
unchanged (in particular their stock quantity stays absent); and when
stock enrichment is disabled the input is returned as-is. -/
theorem enrich_frame_properties (enableStock : Bool) (mode : StockMode) (flag : Bool)
    (httpEnv : ℕ → FetchOutcome × FetchOutcome) (dialogEnv : ℕ → DialogEnv)
    (rows out : List Row)
    (h : enrich_stocks_concurrently enableStock mode flag httpEnv dialogEnv rows = .ok out) :
    out.length = rows.length ∧
    (∀ (j : ℕ), (out[j]?).map rowFrame = (rows[j]?).map rowFrame) ∧
    (∀ (j : ℕ) (r : Row), rows[j]? = some r → r.url = none → out[j]? = some r) ∧
    (enableStock = false → out = rows) := by
  unfold enrich_stocks_concurrently at h
  by_cases hen : enableStock
  · rw [if_neg (by simpa using hen)] at h
    by_cases htg : targetsOf rows = []
    · rw [if_pos htg] at h
      obtain rfl : rows = out := by simpa using h
      exact ⟨rfl, fun j => rfl, fun j r hr _ => hr, fun hf => absurd hen (by simp [hf])⟩
    · rw [if_neg htg] at h
      obtain ⟨hlen, hframe, huntouched⟩ :=
        enrichGo_props mode flag httpEnv dialogEnv (targetsOf rows) rows out h
      refine ⟨hlen, hframe, ?_, fun hf => absurd hen (by simp [hf])⟩
      intro j r hr hurl
      rw [huntouched j (not_target_of_no_url hr hurl)]
      exact hr
  · rw [if_pos (by simpa using hen)] at h
    obtain rfl : rows = out := by simpa using h
    exact ⟨rfl, fun j => rfl, fun j r hr _ => hr, fun _ => rfl⟩

/-- A sample row with a URL (stock still absent, as after assembly). -/
def rowU : Row :=
  { category := "c", name := "n", expiry := none, packQty := none,
    bundlePrice := none, unitCost := none, stockQty := none, sellQty := none,
    sellPrice := none, margin := none, url := some "u", thumb := none }

/-- A sample row without a URL. -/
def rowNoUrl : Row :=
  { category := "c", name := "m", expiry := none, packQty := none,
    bundlePrice := none, unitCost := none, stockQty := none, sellQty := none,
    sellPrice := none, margin := none, url := none, thumb := none }

/-- Witness for C6 on a concrete two-row run in HTTP mode (one target
fails both attempts and keeps stock absent; the URL-less row is
untouched). -/
theorem enrich_frame_properties_witness :
    enrich_stocks_concurrently true .http false (fun _ => (.err, .err))
      (fun _ => dEnvAbsent) [rowNoUrl, rowU] = .ok [rowNoUrl, rowU] ∧
    [rowNoUrl, rowU].length = [rowNoUrl, rowU].length :=
  ⟨rfl,
    (enrich_frame_properties true .http false (fun _ => (.err, .err))
      (fun _ => dEnvAbsent) [rowNoUrl, rowU] [rowNoUrl, rowU] rfl).1⟩

/-- **C4.** In the HTTP strategy, a target whose fetch raises on both the
initial request and the retry makes exactly two attempts, records an
absent stock quantity, and no exception escapes the per-item lookup
(`fetch_stock_http` and `worker_http` are exception-free by type, and the
enrichment run completes with `.ok`). -/
theorem httpStock_double_failure :
    fetch_stock_http .err .err = none ∧
    httpAttempts .err = 2 ∧
    worker_http (fun _ => (.err, .err)) 0 = (0, none) ∧
    enrich_stocks_concurrently true .http false (fun _ => (.err, .err))
      (fun _ => dEnvAbsent) [rowU] = .ok [rowU] :=
  ⟨rfl, rfl, rfl, rfl⟩

/-- **C5** (counterexample to the claim): in the dialog strategy a
navigation timeout on a single target escapes `fetch_stock_from_detail`
(after the page is closed), is re-raised by the `as_completed` loop, and
aborts the whole enrichment run. -/
theorem dialog_failure_aborts_run :
    enrich_stocks_concurrently true .dialog true (fun _ => (.err, .err))
      (fun _ => dEnvRaise) [rowU] = .error .timeout ∧
    (fetch_stock_from_detail dEnvRaise true).pageClosed = true :=
  ⟨rfl, rfl⟩

/-- **C5** (amended).  Per-target failures are isolated in the HTTP
strategy: its lookup traps every error, so the run always completes and a
failing target merely keeps an absent stock quantity.  In the dialog
strategy a raised per-target error is NOT isolated: an exception from the
first target's probe propagates and aborts the enrichment run (the
transient page is still closed first). -/
theorem stock_failure_isolation_amended :
    (∀ (flag : Bool) (httpEnv : ℕ → FetchOutcome × FetchOutcome)
        (dialogEnv : ℕ → DialogEnv) (rows : List Row), ∃ out,
      enrich_stocks_concurrently true .http flag httpEnv dialogEnv rows = .ok out) ∧
    (∀ (flag : Bool) (httpEnv : ℕ → FetchOutcome × FetchOutcome)
        (dialogEnv : ℕ → DialogEnv) (rows : List Row) (i : ℕ) (u : String)
        (ts : List (ℕ × String)) (e : PwError),
      targetsOf rows = (i, u) :: ts →
      (fetch_stock_from_detail (dialogEnv i) flag).result = .error e →
      enrich_stocks_concurrently true .dialog flag httpEnv dialogEnv rows = .error e) := by
  constructor
  · intro flag httpEnv dialogEnv rows
    have hgo : ∀ (ts : List (ℕ × String)) (rs : List Row), ∃ out,
        enrichGo .http flag httpEnv dialogEnv ts rs = .ok out := by
      intro ts
      induction ts with
      | nil => intro rs; exact ⟨rs, rfl⟩
      | cons t ts ih =>
        intro rs
        obtain ⟨i, u⟩ := t
        exact ih (setStockAt rs (worker_http httpEnv i).1 (worker_http httpEnv i).2)
    unfold enrich_stocks_concurrently
    rw [if_neg (by simp)]
    by_cases htg : targetsOf rows = []
    · rw [if_pos htg]; exact ⟨rows, rfl⟩
    · rw [if_neg htg]; exact hgo (targetsOf rows) rows
  · intro flag httpEnv dialogEnv rows i u ts e htg he
    unfold enrich_stocks_concurrently
    rw [if_neg (by simp), if_neg (by rw [htg]; simp), htg]
    show ((match worker_dialog dialogEnv flag i with
      | .error e => .error e
      | .ok (idx, v) => enrichGo .dialog flag httpEnv dialogEnv ts (setStockAt rows idx v)) :
        Except PwError (List Row)) = .error e
    rw [show worker_dialog dialogEnv flag i = .error e by
      unfold worker_dialog; rw [he]]

/-- Witness for the amended C5 at a concrete failing dialog run. -/
theorem stock_failure_isolation_amended_witness :
    targetsOf [rowU] = [(0, "u")] ∧
    enrich_stocks_concurrently true .dialog true (fun _ => (.err, .err))
      (fun _ => dEnvRaise) [rowU] = .error .timeout :=
  ⟨rfl,
    stock_failure_isolation_amended.2 true (fun _ => (.err, .err))
      (fun _ => dEnvRaise) [rowU] 0 "u" [] .timeout rfl rfl⟩

/-- **C8.** In the HTTP strategy, when the fetch succeeds (an `ok`
response) the recorded stock quantity is the maximum over all occurrences
of the `data-stock` marker in the body, each occurrence parsed as an
integer after stripping comma separators (provided every occurrence
parses, i.e. is not commas-only); and when no occurrence is found the
attempt's result is absent. -/
theorem httpStock_max_over_occurrences (body : String) (o2 : FetchOutcome)
    (hne : findStocks body.data ≠ [])
    (hall : (findStocks body.data).all (fun m => stripCommas m != []) = true) :
    fetch_stock_http (.resp true body) o2 =
      some (maxNat ((findStocks body.data).map (fun m => digitsToNat (stripCommas m)))) ∧
    (∀ body2 : String, findStocks body2.data = [] →
      attemptResult (.resp true body2) = none) := by
  constructor
  · have hred : attemptResult (.resp true body) =
        (if findStocks body.data = [] then none
         else if (findStocks body.data).all (fun m => stripCommas m != []) then
           some (maxNat ((findStocks body.data).map (fun m => digitsToNat (stripCommas m))))
         else none) := rfl
    have hatt : attemptResult (.resp true body) =
        some (maxNat ((findStocks body.data).map (fun m => digitsToNat (stripCommas m)))) := by
      rw [hred, if_neg hne, if_pos hall]
    unfold fetch_stock_http
    rw [hatt]
  · intro body2 h2
    have hred : attemptResult (.resp true body2) =
        (if findStocks body2.data = [] then none
         else if (findStocks body2.data).all (fun m => stripCommas m != []) then
           some (maxNat ((findStocks body2.data).map (fun m => digitsToNat (stripCommas m))))
         else none) := rfl
    rw [hred, if_pos h2]

/-- Witness for C8 on a body with two occurrences, `1,200` and `77`. -/
theorem httpStock_max_over_occurrences_witness :
    findStocks ("a data-stock=1,200 b data-stock = 77 c".data) ≠ [] ∧
    fetch_stock_http (.resp true "a data-stock=1,200 b data-stock = 77 c") .err =
      some 1200 :=
  ⟨by decide,
    (httpStock_max_over_occurrences "a data-stock=1,200 b data-stock = 77 c" .err
      (by decide) (by decide)).1.trans (by decide)⟩

end Crawler
